import Mathlib

set_option autoImplicit false

/-! Shallow embedding of the frame-transfer and buffer-lifecycle engine of the
VHDL_Project repository.

Part 1 embeds the chunked DMA transfer loop of `fpga_dma_perform_transfer`
from the PCIe FPGA DMA driver (src/unnamed/part_005), with the register-layout
constants taken from the embedded copy of `pcie_fpga_dma.h` in
`src/ARM/fpga_dma_test.c`.

Part 2 embeds the frame-slot pool (`acquire_free_slot`, `release_slot_ticket`),
the inference mailbox (`push_latest_to_infer`) and the display dispatch path
(`build_frame_buffer` plus the push step of `main`) from
`src/ARM/fpga_lpr_display.c`.

Machine-integer arithmetic is modelled on `Nat`/`Int`; the sizes involved
(chunk sizes up to 4096, DWORD counts up to 1024) are far below every relevant
integer width, and bit masking with a low-bits mask is written with `&&&` as in
the C source. -/

namespace FpgaDma

/-- `#define DMA_MAX_LEN_DWORDS 1024` (pcie_fpga_dma.h, embedded in
src/ARM/fpga_dma_test.c). -/
def DMA_MAX_LEN_DWORDS : Nat := 1024

/-- `#define DMA_MAX_LEN_BYTES (DMA_MAX_LEN_DWORDS * 4)`. -/
def DMA_MAX_LEN_BYTES : Nat := DMA_MAX_LEN_DWORDS * 4

/-- `#define DMA_CMD_LEN_MASK 0x3FF` — bits [9:0], transfer length in DWORDs
minus 1. -/
def DMA_CMD_LEN_MASK : Nat := 0x3FF

/-- `#define DMA_CMD_64BIT_ADDR (1 << 16)`. -/
def DMA_CMD_64BIT_ADDR : Nat := 1 <<< 16

/-- `#define DMA_CMD_WRITE (1 << 24)`. -/
def DMA_CMD_WRITE : Nat := 1 <<< 24

/-- Linux `-ETIMEDOUT` as returned by the driver on a chunk timeout. -/
def ETIMEDOUT : Int := 110

/-- The command word the driver programs into `BAR1_DMA_CMD_REG` for one chunk:
```
u32 length_in_dwords = (chunk_size + 3) / 4;
u32 cmd_length = length_in_dwords - 1;
cmd_reg = (cmd_length & DMA_CMD_LEN_MASK) | DMA_CMD_64BIT_ADDR | DMA_CMD_WRITE;
```
(src/unnamed/part_005, fpga_dma_perform_transfer). -/
def dmaCmdReg (chunk_size : Nat) : Nat :=
  let length_in_dwords := (chunk_size + 3) / 4
  let cmd_length := length_in_dwords - 1
  (cmd_length &&& DMA_CMD_LEN_MASK) ||| DMA_CMD_64BIT_ADDR ||| DMA_CMD_WRITE

/-- The kernel `ALIGN(x, a)` macro for the power-of-two alignment used in the
`chunk_size == 0` recovery branch. -/
def ALIGN (x a : Nat) : Nat := (x + a - 1) / a * a

/-- The chunk size the driver commits for the current address and remaining
byte count:
```
chunk_size = min(remaining, (size_t)DMA_MAX_LEN_BYTES);
if ((current_addr & 0xFFF) + chunk_size > 0x1000)
    chunk_size = 0x1000 - (current_addr & 0xFFF);
```
(src/unnamed/part_005, fpga_dma_perform_transfer; the inner
`chunk_size == 0` recovery branch is handled by the caller `dmaChunksF`). -/
def dmaChunkSize (current_addr remaining : Nat) : Nat :=
  let chunk_size := min remaining DMA_MAX_LEN_BYTES
  if (current_addr &&& 0xFFF) + chunk_size > 0x1000 then
    0x1000 - (current_addr &&& 0xFFF)
  else chunk_size

/-- One committed chunk of the transfer: its destination bus address, its byte
length, and the command word written to `BAR1_DMA_CMD_REG` for it. -/
structure ChunkRec where
  addr : Nat
  size : Nat
  cmd : Nat
  deriving Repr, DecidableEq

/-- The `while (remaining > 0)` chunking loop of `fpga_dma_perform_transfer`,
emitting the list of committed chunks.  The loop is written on explicit fuel so
that the source's `chunk_size == 0` recovery branch
(`current_addr = ALIGN(current_addr, 0x1000); continue;`) can be transcribed
as-is; `dmaChunksF_isSome` below shows the fuel `remaining + 1` used by
`fpga_dma_chunks` always suffices, i.e. that branch never fires. -/
def dmaChunksF : Nat → Nat → Nat → Option (List ChunkRec)
  | 0, _, _ => none
  | fuel + 1, current_addr, remaining =>
    if remaining = 0 then some []
    else
      let chunk_size := dmaChunkSize current_addr remaining
      if chunk_size = 0 then
        dmaChunksF fuel (ALIGN current_addr 0x1000) remaining
      else
        (dmaChunksF fuel (current_addr + chunk_size) (remaining - chunk_size)).map
          (fun rest => ⟨current_addr, chunk_size, dmaCmdReg chunk_size⟩ :: rest)

/-- The chunk sequence emitted by `fpga_dma_perform_transfer` for a transfer of
`size` bytes whose destination buffer starts at bus address `dma_handle`. -/
def fpga_dma_chunks (dma_handle size : Nat) : List ChunkRec :=
  (dmaChunksF (size + 1) dma_handle size).getD []

/-- Outcome of a full transfer run: the chunks whose completion was observed
(their data is in host memory), and the driver return value. -/
structure TransferOutcome where
  written : List ChunkRec
  ret : Int
  deriving Repr, DecidableEq

/-- The transfer loop of `fpga_dma_perform_transfer` including the per-chunk
sentinel completion poll.  The poll is abstracted by the oracle
`completes : Nat → Bool`: `completes chunk_num = true` means the sentinel at
the tail of chunk `chunk_num` is overwritten before the wall-clock deadline
`jiffies + msecs_to_jiffies(dma_timeout_ms)`, `false` means the deadline is
reached with a sentinel still in place, in which case the source executes
`return -ETIMEDOUT;` on the spot. -/
def dmaTransferF (completes : Nat → Bool) :
    Nat → Nat → Nat → Nat → List ChunkRec → Option TransferOutcome
  | 0, _, _, _, _ => none
  | fuel + 1, current_addr, remaining, chunk_num, written =>
    if remaining = 0 then some ⟨written.reverse, 0⟩
    else
      let chunk_size := dmaChunkSize current_addr remaining
      if chunk_size = 0 then
        dmaTransferF completes fuel (ALIGN current_addr 0x1000) remaining chunk_num written
      else
        if completes chunk_num then
          dmaTransferF completes fuel (current_addr + chunk_size)
            (remaining - chunk_size) (chunk_num + 1)
            (⟨current_addr, chunk_size, dmaCmdReg chunk_size⟩ :: written)
        else
          some ⟨written.reverse, -ETIMEDOUT⟩

/-- `fpga_dma_perform_transfer(dev, size)` under the completion oracle
`completes`, for a DMA buffer at bus address `dma_handle`. -/
def fpga_dma_perform_transfer (completes : Nat → Bool) (dma_handle size : Nat) :
    Option TransferOutcome :=
  dmaTransferF completes (size + 1) dma_handle size 0 []

end FpgaDma

namespace LprDisplay

/-- `struct frame_slot { uint8_t *data; bool in_use; uint64_t generation; }`
(src/ARM/fpga_lpr_display.c).  The backing buffer is modelled as the byte list
it holds. -/
structure FrameSlot where
  data : List Nat
  in_use : Bool
  generation : Nat
  deriving DecidableEq

instance : Inhabited FrameSlot := ⟨⟨[], false, 0⟩⟩

/-- `struct slot_ticket { int idx; uint64_t generation; }`.  `idx` is a C
`int`, so it is modelled as `Int` (tickets with negative or oversized indices
are representable, as the guard in `release_slot_ticket` anticipates). -/
structure SlotTicket where
  idx : Int
  generation : Nat
  deriving DecidableEq

/-- The slot-pool fields of `struct app_ctx`: the slot array and the counters
touched by the pool operations (`released_frames`,
`slot_wait_timeout_count`). -/
structure PoolState where
  slots : List FrameSlot
  released_frames : Nat
  slot_wait_timeout_count : Nat
  deriving DecidableEq

instance : Inhabited PoolState := ⟨⟨[], 0, 0⟩⟩

/-- `ctx->slots[i]` — array indexing into the slot array. -/
def slotGet (slots : List FrameSlot) (i : Nat) : FrameSlot :=
  slots.getD i default

/-- The guard of `release_slot_ticket`:
```
ticket->idx >= 0 && ticket->idx < ctx->slot_count &&
ctx->slots[ticket->idx].in_use &&
ctx->slots[ticket->idx].generation == ticket->generation
```
-/
def releaseMatches (s : PoolState) (t : SlotTicket) : Bool :=
  decide (0 ≤ t.idx) && decide (t.idx < (s.slots.length : Int)) &&
    (slotGet s.slots t.idx.toNat).in_use &&
    decide ((slotGet s.slots t.idx.toNat).generation = t.generation)

/-- `release_slot_ticket(ctx, ticket, count_release)`
(src/ARM/fpga_lpr_display.c:509).  If the guard matches, the slot is marked
free, `released_frames` is incremented when `count_release` is set, and
`g_cond_signal(&ctx->slots_cond)` wakes one waiter; otherwise nothing happens.
The returned `Bool` records whether the signal was issued. -/
def release_slot_ticket (s : PoolState) (t : SlotTicket) (count_release : Bool) :
    PoolState × Bool :=
  if releaseMatches s t then
    ({ s with
        slots := s.slots.set t.idx.toNat
          { slotGet s.slots t.idx.toNat with in_use := false },
        released_frames :=
          if count_release then s.released_frames + 1 else s.released_frames },
      true)
  else (s, false)

/-- The scan `for (i = 0; i < ctx->slot_count; i++) if (!ctx->slots[i].in_use)`
of `acquire_free_slot`: index of the first free slot, if any. -/
def firstFreeIdx : List FrameSlot → Option Nat
  | [] => none
  | sl :: rest => if sl.in_use then (firstFreeIdx rest).map (· + 1) else some 0

/-- One locked scan-and-take iteration of `acquire_free_slot`
(src/ARM/fpga_lpr_display.c:530): the first free slot is marked in-use, its
generation is incremented, and a ticket bound to the new generation is
returned; `none` when every slot is in use. -/
def acquire_scan (s : PoolState) : Option (PoolState × SlotTicket) :=
  match firstFreeIdx s.slots with
  | none => none
  | some i =>
    some ({ s with
              slots := s.slots.set i
                { slotGet s.slots i with
                    in_use := true,
                    generation := (slotGet s.slots i).generation + 1 } },
          ⟨(i : Int), (slotGet s.slots i).generation + 1⟩)

/-- Result of a full `acquire_free_slot` call: the pool state at return and
the ticket (`none` models the `return -1` timeout path). -/
structure AcqOutcome where
  state : PoolState
  ticket : Option SlotTicket
  deriving DecidableEq

/-- The `for (;;)` wait loop of `acquire_free_slot`.  Each element of `obs` is
one loop iteration: the pool state observed after taking `slots_lock`, paired
with the `mono_us()` value read in that iteration.  A successful scan returns
a ticket; otherwise, when `now >= deadline_us`, the call bumps
`slot_wait_timeout_count` and returns the timeout result; otherwise it waits
on `slots_cond` (bounded by `min(now + 20000, deadline_us)`) and re-checks on
the next observation.  `none` means the trace ended with the call still
waiting. -/
def acquire_free_slot (deadline_us : Int) :
    List (PoolState × Int) → Option AcqOutcome
  | [] => none
  | (s, now) :: rest =>
    match acquire_scan s with
    | some (s2, t) => some ⟨s2, some t⟩
    | none =>
      if deadline_us ≤ now then
        some ⟨{ s with slot_wait_timeout_count := s.slot_wait_timeout_count + 1 },
              none⟩
      else acquire_free_slot deadline_us rest

/-- `∀ i < slot_count, slots[i].in_use` — no free slot at this observation. -/
def noFreeSlot (s : PoolState) : Prop :=
  ∀ i, i < s.slots.length → (slotGet s.slots i).in_use = true

/-- A two-slot pool with both slots in use — the exhausted-pool scenario of
the spec's `N = 2` timeout test. -/
def poolFullDemo : PoolState := ⟨[⟨[], true, 1⟩, ⟨[], true, 2⟩], 0, 0⟩

/-- Three wait-loop observations of the exhausted pool at 20 ms, 40 ms and
50 ms after an acquire that started at time 0 with a 50 ms timeout. -/
def acqObsDemo : List (PoolState × Int) :=
  [(poolFullDemo, 20000), (poolFullDemo, 40000), (poolFullDemo, 50000)]

/-- The timeout outcome of `acquire_free_slot` on `acqObsDemo`. -/
def acqOutDemo : AcqOutcome :=
  ⟨{ poolFullDemo with
      slot_wait_timeout_count := poolFullDemo.slot_wait_timeout_count + 1 },
    none⟩

/-- One pool operation of an interleaving: a completed `acquire_free_slot`
call (which either hands out a ticket or times out), or a
`release_slot_ticket(ticket, count_release)` call. -/
inductive PoolOp where
  | acq : PoolOp
  | rel : SlotTicket → Bool → PoolOp

/-- Pool state together with the multiset of currently valid tickets: those
handed out by `acquire_free_slot` and not yet matched by a successful
release. -/
structure PoolWorld where
  state : PoolState
  valid : List SlotTicket

/-- Effect of one pool operation.  An acquire that finds a free slot adds its
ticket to the valid set; an acquire that times out only bumps
`slot_wait_timeout_count`; a release removes the released ticket from the
valid set exactly when the generation guard matched. -/
def poolStep (w : PoolWorld) : PoolOp → PoolWorld
  | PoolOp.acq =>
    match acquire_scan w.state with
    | some (s2, t) => ⟨s2, t :: w.valid⟩
    | none =>
      ⟨{ w.state with
           slot_wait_timeout_count := w.state.slot_wait_timeout_count + 1 },
        w.valid⟩
  | PoolOp.rel t count_release =>
    let r := release_slot_ticket w.state t count_release
    ⟨r.1, if r.2 then w.valid.erase t else w.valid⟩

/-- An arbitrary interleaving of acquire/release calls, run left to right. -/
def poolRun (ops : List PoolOp) (w : PoolWorld) : PoolWorld :=
  ops.foldl poolStep w

/-- The pool as `init_copy_slots` builds it: `slot_count` zero-initialised
slots (`calloc` — `in_use = false`, `generation = 0`), counters at zero, no
ticket handed out. -/
def initWorld (slot_count : Nat) : PoolWorld :=
  ⟨⟨List.replicate slot_count default, 0, 0⟩, []⟩

/-- Invariant tying the valid-ticket set to the slot array (helper for the
trace theorems). -/
def PoolInv (w : PoolWorld) : Prop :=
  (∀ t ∈ w.valid,
      0 ≤ t.idx ∧ t.idx.toNat < w.state.slots.length ∧
      (slotGet w.state.slots t.idx.toNat).in_use = true ∧
      (slotGet w.state.slots t.idx.toNat).generation = t.generation) ∧
  (w.valid.map (fun t => t.idx.toNat)).Nodup ∧
  (∀ i, i < w.state.slots.length →
      (slotGet w.state.slots i).in_use = true →
      (⟨(i : Int), (slotGet w.state.slots i).generation⟩ : SlotTicket) ∈ w.valid)

/-- The inference mailbox fields of `struct app_ctx`: `infer_latest_raw`,
`infer_frame_seq`, `infer_has_new`, and the drop counter
`infer_overwrite_count`. -/
structure InferMailbox where
  infer_latest_raw : List Nat
  infer_frame_seq : Nat
  infer_has_new : Bool
  infer_overwrite_count : Nat
  deriving DecidableEq

/-- `push_latest_to_infer(ctx, raw)` (src/ARM/fpga_lpr_display.c:1095): under
`infer_lock`, bump the drop counter if the previous frame is still unconsumed,
overwrite the single buffer, advance the sequence number, set the has-new flag
and signal the worker.  The function never waits on the consumer; it is total
in the mailbox state. -/
def push_latest_to_infer (m : InferMailbox) (raw : List Nat) : InferMailbox :=
  { infer_latest_raw := raw,
    infer_frame_seq := m.infer_frame_seq + 1,
    infer_has_new := true,
    infer_overwrite_count :=
      if m.infer_has_new then m.infer_overwrite_count + 1
      else m.infer_overwrite_count }

/-- The mailbox-consuming step of `infer_thread_main`
(src/ARM/fpga_lpr_display.c:1018): copy the frame and sequence number out
under the lock and clear the has-new flag. -/
def infer_take (m : InferMailbox) : InferMailbox × List Nat × Nat :=
  ({ m with infer_has_new := false }, m.infer_latest_raw, m.infer_frame_seq)

/-- `build_frame_buffer(ctx, ticket)` (src/ARM/fpga_lpr_display.c:564),
reduced to its effect on the pool.  `cookieOk` is the `g_new0` cookie
allocation (glib aborts the process instead of returning NULL, so in every
run that continues this is `true`; the C `if (!cookie)` guard is transcribed
anyway), `wrapOk` is `gst_buffer_new_wrapped_full` succeeding.  On a wrap
failure the ticket is released with `count_release = false` and no buffer is
returned. -/
def build_frame_buffer (s : PoolState) (t : SlotTicket) (cookieOk wrapOk : Bool) :
    PoolState × Bool :=
  if cookieOk = false then (s, false)
  else if wrapOk = false then ((release_slot_ticket s t false).1, false)
  else (s, true)

/-- Outcome of one display-dispatch step of the capture loop in `main`. -/
structure DispatchResult where
  pool : PoolState
  pushed_frames : Nat
  fatal : Bool
  deriving DecidableEq

/-- The push step of the capture loop (src/ARM/fpga_lpr_display.c:1257):
```
buf = build_frame_buffer(&ctx, &ticket);
if (!buf) break;
flow = gst_app_src_push_buffer(..., buf);
if (flow != GST_FLOW_OK) { release_slot_ticket(&ctx, &ticket, false); break; }
ctx.pushed_frames++;
```
`flowOk` stands for `flow == GST_FLOW_OK`; `fatal` records that the loop
executed `break`. -/
def dispatch_frame (s : PoolState) (t : SlotTicket) (cookieOk wrapOk flowOk : Bool)
    (pushed_frames : Nat) : DispatchResult :=
  let b := build_frame_buffer s t cookieOk wrapOk
  if b.2 = false then ⟨b.1, pushed_frames, true⟩
  else if flowOk = false then
    ⟨(release_slot_ticket b.1 t false).1, pushed_frames, true⟩
  else ⟨b.1, pushed_frames + 1, false⟩

end LprDisplay

namespace FpgaDma

theorem land_fff_eq_mod (n : Nat) : n &&& 0xFFF = n % 0x1000 := by
  have h1 : (0xFFF : Nat) = 2 ^ 12 - 1 := by norm_num
  have h2 : (0x1000 : Nat) = 2 ^ 12 := by norm_num
  rw [h1, h2]
  apply Nat.eq_of_testBit_eq
  intro i
  rw [Nat.testBit_land, Nat.testBit_two_pow_sub_one, Nat.testBit_mod_two_pow]
  cases Nat.testBit n i <;> simp

theorem dmaChunkSize_eq_mod (current_addr remaining : Nat) :
    dmaChunkSize current_addr remaining =
      if current_addr % 0x1000 + min remaining DMA_MAX_LEN_BYTES > 0x1000 then
        0x1000 - current_addr % 0x1000
      else min remaining DMA_MAX_LEN_BYTES := by
  unfold dmaChunkSize
  rw [land_fff_eq_mod]

theorem dmaChunkSize_pos (current_addr remaining : Nat) (hr : 0 < remaining) :
    0 < dmaChunkSize current_addr remaining := by
  rw [dmaChunkSize_eq_mod]
  have hmod : current_addr % 0x1000 < 0x1000 := Nat.mod_lt _ (by norm_num)
  have hmax : DMA_MAX_LEN_BYTES = 4096 := rfl
  rw [hmax]
  split <;> omega

theorem dmaChunkSize_le (current_addr remaining : Nat) :
    dmaChunkSize current_addr remaining ≤ remaining := by
  rw [dmaChunkSize_eq_mod]
  have hmax : DMA_MAX_LEN_BYTES = 4096 := rfl
  rw [hmax]
  split <;> omega

theorem dmaChunkSize_le_max (current_addr remaining : Nat) :
    dmaChunkSize current_addr remaining ≤ DMA_MAX_LEN_BYTES := by
  rw [dmaChunkSize_eq_mod]
  have hmax : DMA_MAX_LEN_BYTES = 4096 := rfl
  rw [hmax]
  split <;> omega

theorem dmaChunkSize_boundary (current_addr remaining : Nat) :
    current_addr % 0x1000 + dmaChunkSize current_addr remaining ≤ 0x1000 := by
  rw [dmaChunkSize_eq_mod]
  have hmod : current_addr % 0x1000 < 0x1000 := Nat.mod_lt _ (by norm_num)
  have hmax : DMA_MAX_LEN_BYTES = 4096 := rfl
  rw [hmax]
  split <;> omega

theorem dmaChunkSize_aligned (current_addr remaining : Nat)
    (ha : current_addr % 0x1000 = 0) :
    dmaChunkSize current_addr remaining = min remaining DMA_MAX_LEN_BYTES := by
  rw [dmaChunkSize_eq_mod, ha]
  have hmax : DMA_MAX_LEN_BYTES = 4096 := rfl
  rw [hmax]
  have hmin : min remaining 4096 ≤ 4096 := Nat.min_le_right _ _
  split <;> omega

theorem dmaChunksF_succ (fuel current_addr remaining : Nat) :
    dmaChunksF (fuel + 1) current_addr remaining =
      if remaining = 0 then some []
      else if dmaChunkSize current_addr remaining = 0 then
        dmaChunksF fuel (ALIGN current_addr 0x1000) remaining
      else
        (dmaChunksF fuel (current_addr + dmaChunkSize current_addr remaining)
            (remaining - dmaChunkSize current_addr remaining)).map
          (fun rest =>
            ⟨current_addr, dmaChunkSize current_addr remaining,
              dmaCmdReg (dmaChunkSize current_addr remaining)⟩ :: rest) := rfl

theorem dmaChunksF_isSome :
    ∀ (remaining : Nat), ∀ (fuel current_addr : Nat), remaining < fuel →
      (dmaChunksF fuel current_addr remaining).isSome := by
  intro remaining
  induction remaining using Nat.strong_induction_on with
  | _ r ih =>
    intro fuel addr hf
    cases fuel with
    | zero => omega
    | succ f =>
      by_cases hr : r = 0
      · simp [dmaChunksF_succ, hr]
      · have h0 : 0 < r := Nat.pos_of_ne_zero hr
        have hcs := dmaChunkSize_pos addr r h0
        rw [dmaChunksF_succ, if_neg hr, if_neg (Nat.pos_iff_ne_zero.mp hcs)]
        have hrec := ih (r - dmaChunkSize addr r) (by omega) f
          (addr + dmaChunkSize addr r) (by omega)
        obtain ⟨l, hl⟩ := Option.isSome_iff_exists.mp hrec
        rw [hl]
        rfl

theorem dmaChunksF_fuel_eq :
    ∀ (remaining : Nat), ∀ (f1 f2 current_addr : Nat),
      remaining < f1 → remaining < f2 →
      dmaChunksF f1 current_addr remaining = dmaChunksF f2 current_addr remaining := by
  intro remaining
  induction remaining using Nat.strong_induction_on with
  | _ r ih =>
    intro f1 f2 addr h1 h2
    cases f1 with
    | zero => omega
    | succ g1 =>
      cases f2 with
      | zero => omega
      | succ g2 =>
        by_cases hr : r = 0
        · simp [dmaChunksF_succ, hr]
        · have h0 : 0 < r := Nat.pos_of_ne_zero hr
          have hcs := dmaChunkSize_pos addr r h0
          rw [dmaChunksF_succ, dmaChunksF_succ, if_neg hr, if_neg hr,
            if_neg (Nat.pos_iff_ne_zero.mp hcs), if_neg (Nat.pos_iff_ne_zero.mp hcs),
            ih (r - dmaChunkSize addr r) (by omega) g1 g2
              (addr + dmaChunkSize addr r) (by omega) (by omega)]

theorem fpga_dma_chunks_zero (current_addr : Nat) :
    fpga_dma_chunks current_addr 0 = [] := rfl

theorem fpga_dma_chunks_cons (current_addr remaining : Nat) (hr : 0 < remaining) :
    fpga_dma_chunks current_addr remaining =
      ⟨current_addr, dmaChunkSize current_addr remaining,
        dmaCmdReg (dmaChunkSize current_addr remaining)⟩ ::
        fpga_dma_chunks (current_addr + dmaChunkSize current_addr remaining)
          (remaining - dmaChunkSize current_addr remaining) := by
  have hcs := dmaChunkSize_pos current_addr remaining hr
  show (dmaChunksF (remaining + 1) current_addr remaining).getD [] =
    ⟨current_addr, dmaChunkSize current_addr remaining,
      dmaCmdReg (dmaChunkSize current_addr remaining)⟩ ::
      (dmaChunksF (remaining - dmaChunkSize current_addr remaining + 1)
        (current_addr + dmaChunkSize current_addr remaining)
        (remaining - dmaChunkSize current_addr remaining)).getD []
  rw [dmaChunksF_succ, if_neg (Nat.pos_iff_ne_zero.mp hr),
    if_neg (Nat.pos_iff_ne_zero.mp hcs),
    dmaChunksF_fuel_eq (remaining - dmaChunkSize current_addr remaining)
      remaining (remaining - dmaChunkSize current_addr remaining + 1)
      (current_addr + dmaChunkSize current_addr remaining) (by omega) (by omega)]
  have hsome := dmaChunksF_isSome (remaining - dmaChunkSize current_addr remaining)
    (remaining - dmaChunkSize current_addr remaining + 1)
    (current_addr + dmaChunkSize current_addr remaining) (by omega)
  obtain ⟨l, hl⟩ := Option.isSome_iff_exists.mp hsome
  rw [hl]
  rfl

theorem fpga_dma_chunks_props :
    ∀ (remaining current_addr : Nat),
      ((fpga_dma_chunks current_addr remaining).map ChunkRec.size).sum = remaining ∧
      ∀ c ∈ fpga_dma_chunks current_addr remaining,
        0 < c.size ∧ c.size ≤ DMA_MAX_LEN_BYTES ∧
        c.addr % 0x1000 + c.size ≤ 0x1000 ∧ c.cmd = dmaCmdReg c.size := by
  intro remaining
  induction remaining using Nat.strong_induction_on with
  | _ r ih =>
    intro addr
    by_cases hr : r = 0
    · subst hr
      simp [fpga_dma_chunks_zero]
    · have h0 : 0 < r := Nat.pos_of_ne_zero hr
      have hcs := dmaChunkSize_pos addr r h0
      have hle := dmaChunkSize_le addr r
      obtain ⟨ihsum, ihmem⟩ :=
        ih (r - dmaChunkSize addr r) (by omega) (addr + dmaChunkSize addr r)
      rw [fpga_dma_chunks_cons addr r h0]
      constructor
      · simp only [List.map_cons, List.sum_cons, ihsum]
        omega
      · intro c hc
        rcases List.mem_cons.mp hc with h | h
        · subst h
          exact ⟨hcs, dmaChunkSize_le_max addr r, dmaChunkSize_boundary addr r, rfl⟩
        · exact ihmem c h

theorem dmaTransferF_succ (completes : Nat → Bool)
    (fuel current_addr remaining chunk_num : Nat) (written : List ChunkRec) :
    dmaTransferF completes (fuel + 1) current_addr remaining chunk_num written =
      if remaining = 0 then some ⟨written.reverse, 0⟩
      else if dmaChunkSize current_addr remaining = 0 then
        dmaTransferF completes fuel (ALIGN current_addr 0x1000) remaining
          chunk_num written
      else if completes chunk_num then
        dmaTransferF completes fuel
          (current_addr + dmaChunkSize current_addr remaining)
          (remaining - dmaChunkSize current_addr remaining) (chunk_num + 1)
          (⟨current_addr, dmaChunkSize current_addr remaining,
            dmaCmdReg (dmaChunkSize current_addr remaining)⟩ :: written)
      else some ⟨written.reverse, -ETIMEDOUT⟩ := rfl

theorem dmaTransferF_timeout (completes : Nat → Bool) :
    ∀ (remaining : Nat), ∀ (fuel current_addr chunk_num : Nat)
      (written : List ChunkRec) (j : Nat),
      remaining < fuel →
      (∀ i, i < j → completes (chunk_num + i) = true) →
      completes (chunk_num + j) = false →
      j < (fpga_dma_chunks current_addr remaining).length →
      dmaTransferF completes fuel current_addr remaining chunk_num written =
        some ⟨written.reverse ++ (fpga_dma_chunks current_addr remaining).take j,
          -ETIMEDOUT⟩ := by
  intro remaining
  induction remaining using Nat.strong_induction_on with
  | _ r ih =>
    intro fuel addr n written j hf hbefore hfail hlen
    by_cases hr : r = 0
    · subst hr
      rw [fpga_dma_chunks_zero] at hlen
      simp at hlen
    · have h0 : 0 < r := Nat.pos_of_ne_zero hr
      have hcs := dmaChunkSize_pos addr r h0
      cases fuel with
      | zero => omega
      | succ f =>
        rw [dmaTransferF_succ, if_neg hr, if_neg (Nat.pos_iff_ne_zero.mp hcs)]
        rw [fpga_dma_chunks_cons addr r h0] at hlen ⊢
        cases j with
        | zero =>
          have hn : completes n = false := by simpa using hfail
          rw [if_neg (by simp [hn])]
          simp
        | succ j2 =>
          have hn : completes n = true := by simpa using hbefore 0 (Nat.succ_pos j2)
          rw [if_pos hn]
          have hrec := ih (r - dmaChunkSize addr r) (by omega) f
            (addr + dmaChunkSize addr r) (n + 1)
            (⟨addr, dmaChunkSize addr r, dmaCmdReg (dmaChunkSize addr r)⟩ :: written)
            j2 (by omega)
            (fun i hi => by
              have h1 := hbefore (i + 1) (by omega)
              have h2 : n + (i + 1) = n + 1 + i := by omega
              rw [h2] at h1
              exact h1)
            (by
              have : n + 1 + j2 = n + (j2 + 1) := by omega
              rw [this]
              exact hfail)
            (by simpa using hlen)
          rw [hrec]
          simp [List.take_succ_cons]

/-- C1, counterexample.  For the 4096-byte (1024-DWORD) chunk of an aligned
4096-byte transfer, the length field the driver leaves in bits [9:0] of the
command word written to `BAR1_DMA_CMD_REG` is `1023` (`0x3FF`, the
length-in-DWORDs-minus-one encoding), not `0`: the claim that the command
word carries a zero length field is false on the code. -/
theorem dma_cmd_len_field_for_4096_chunk_is_1023 :
    ((fpga_dma_chunks 0 4096).map (fun c => c.cmd &&& DMA_CMD_LEN_MASK)) = [1023] ∧
      (1023 : Nat) ≠ 0 := by
  constructor
  · decide
  · decide

/-- C1, amended.  Every maximum-size (4096-byte, 1024-DWORD) chunk emitted by
`fpga_dma_perform_transfer` carries length field `1023 = 0x3FF` in bits [9:0]
of its command word: the driver encodes length-in-DWORDs minus one, and the
zero-means-1024-DWORDs convention lives in the RTL decode of that field plus
one, not in the register value itself. -/
theorem dma_cmd_len_field_max_chunk (dma_handle size : Nat) (c : ChunkRec)
    (hc : c ∈ fpga_dma_chunks dma_handle size) (hsz : c.size = DMA_MAX_LEN_BYTES) :
    c.cmd &&& DMA_CMD_LEN_MASK = 1023 := by
  have h := (fpga_dma_chunks_props size dma_handle).2 c hc
  rw [h.2.2.2, hsz]
  decide

theorem dma_cmd_len_field_max_chunk_witness :
    (⟨0, 4096, dmaCmdReg 4096⟩ : ChunkRec) ∈ fpga_dma_chunks 0 4096 ∧
      (⟨0, 4096, dmaCmdReg 4096⟩ : ChunkRec).cmd &&& DMA_CMD_LEN_MASK = 1023 :=
  ⟨by decide, dma_cmd_len_field_max_chunk 0 4096 ⟨0, 4096, dmaCmdReg 4096⟩
    (by decide) (by decide)⟩

/-- C3.  For every destination start address and total byte count, no chunk
emitted by `fpga_dma_perform_transfer` crosses a 4096-byte alignment boundary
(`addr % 0x1000 + size ≤ 0x1000`), every chunk is at most
`DMA_MAX_LEN_BYTES = 4096` bytes, and the chunk lengths sum to the total. -/
theorem dma_chunks_boundary_safe_and_sum (dma_handle size : Nat) :
    (∀ c ∈ fpga_dma_chunks dma_handle size,
        c.addr % 0x1000 + c.size ≤ 0x1000 ∧ c.size ≤ DMA_MAX_LEN_BYTES) ∧
      ((fpga_dma_chunks dma_handle size).map ChunkRec.size).sum = size := by
  have h := fpga_dma_chunks_props size dma_handle
  exact ⟨fun c hc => ⟨(h.2 c hc).2.2.1, (h.2 c hc).2.1⟩, h.1⟩

theorem dma_chunks_boundary_safe_and_sum_witness :
    ((⟨100, 3996, dmaCmdReg 3996⟩ : ChunkRec).addr % 0x1000 +
        (⟨100, 3996, dmaCmdReg 3996⟩ : ChunkRec).size ≤ 0x1000 ∧
      (⟨100, 3996, dmaCmdReg 3996⟩ : ChunkRec).size ≤ DMA_MAX_LEN_BYTES) ∧
      ((fpga_dma_chunks 100 8192).map ChunkRec.size).sum = 8192 :=
  ⟨(dma_chunks_boundary_safe_and_sum 100 8192).1 ⟨100, 3996, dmaCmdReg 3996⟩
    (by decide), (dma_chunks_boundary_safe_and_sum 100 8192).2⟩

/-- C6.  If the sentinel poll of some chunk `j` reaches the wall-clock
deadline with a sentinel still unoverwritten (`completes j = false`, all
earlier chunks having completed), `fpga_dma_perform_transfer` returns
`-ETIMEDOUT` at that point: the result's written list is exactly the chunks
before `j` — no chunk is retried, no later chunk is attempted, and the data
of the completed chunks is left in place. -/
theorem dma_chunk_timeout_aborts_whole_transfer (completes : Nat → Bool)
    (dma_handle size j : Nat)
    (hbefore : ∀ i, i < j → completes i = true)
    (hfail : completes j = false)
    (hlen : j < (fpga_dma_chunks dma_handle size).length) :
    fpga_dma_perform_transfer completes dma_handle size =
      some ⟨(fpga_dma_chunks dma_handle size).take j, -ETIMEDOUT⟩ := by
  have h := dmaTransferF_timeout completes size (size + 1) dma_handle 0 [] j
    (by omega) (fun i hi => by simpa using hbefore i hi) (by simpa using hfail) hlen
  simpa [fpga_dma_perform_transfer] using h

theorem dma_chunk_timeout_aborts_whole_transfer_witness :
    fpga_dma_perform_transfer (fun i => decide (i < 1)) 0 8192 =
      some ⟨(fpga_dma_chunks 0 8192).take 1, -ETIMEDOUT⟩ :=
  dma_chunk_timeout_aborts_whole_transfer (fun i => decide (i < 1)) 0 8192 1
    (fun i hi => decide_eq_true hi) (by decide) (by decide)

/-- C8.  For every destination address and positive remaining byte count the
committed chunk size is strictly positive — so the `chunk_size == 0` recovery
branch inside the boundary check (guarded by exactly this quantity being zero)
is unreachable, and the fuel `remaining + 1` never runs out — and when the
destination address is 4096-byte aligned the full-size chunk
`min remaining DMA_MAX_LEN_BYTES` is used. -/
theorem dma_chunk_size_never_zero (current_addr remaining : Nat)
    (hr : 0 < remaining) :
    0 < dmaChunkSize current_addr remaining ∧
      (current_addr % 0x1000 = 0 →
        dmaChunkSize current_addr remaining = min remaining DMA_MAX_LEN_BYTES) ∧
      (dmaChunksF (remaining + 1) current_addr remaining).isSome = true :=
  ⟨dmaChunkSize_pos current_addr remaining hr,
    fun ha => dmaChunkSize_aligned current_addr remaining ha,
    dmaChunksF_isSome remaining (remaining + 1) current_addr (Nat.lt_succ_self _)⟩

theorem dma_chunk_size_never_zero_witness :
    0 < dmaChunkSize 4096 5000 ∧
      (4096 % 0x1000 = 0 → dmaChunkSize 4096 5000 = min 5000 DMA_MAX_LEN_BYTES) ∧
      (dmaChunksF (5000 + 1) 4096 5000).isSome = true :=
  dma_chunk_size_never_zero 4096 5000 (by decide)

end FpgaDma

namespace LprDisplay

theorem slotGet_set_self (l : List FrameSlot) (i : Nat) (x : FrameSlot)
    (h : i < l.length) : slotGet (l.set i x) i = x := by
  simp [slotGet, List.getD_eq_getElem?_getD, List.getElem?_set_self, h]

theorem slotGet_set_ne (l : List FrameSlot) (i j : Nat) (x : FrameSlot)
    (h : j ≠ i) : slotGet (l.set i x) j = slotGet l j := by
  simp [slotGet, List.getD_eq_getElem?_getD, List.getElem?_set_ne (Ne.symm h)]

theorem slotGet_replicate (n i : Nat) :
    slotGet (List.replicate n (default : FrameSlot)) i = default := by
  rcases Nat.lt_or_ge i n with h | h
  · simp [slotGet, List.getD_eq_getElem?_getD, List.getElem?_replicate, h]
  · simp [slotGet, List.getD_eq_getElem?_getD, List.getElem?_replicate,
      Nat.not_lt.mpr h]

theorem releaseMatches_true_iff (s : PoolState) (t : SlotTicket) :
    releaseMatches s t = true ↔
      0 ≤ t.idx ∧ t.idx < (s.slots.length : Int) ∧
      (slotGet s.slots t.idx.toNat).in_use = true ∧
      (slotGet s.slots t.idx.toNat).generation = t.generation := by
  simp [releaseMatches, Bool.and_eq_true, decide_eq_true_iff, and_assoc]

theorem release_of_matches_false (s : PoolState) (t : SlotTicket) (b : Bool)
    (h : releaseMatches s t = false) : release_slot_ticket s t b = (s, false) := by
  simp [release_slot_ticket, h]

theorem release_fst_released_frames_false (s : PoolState) (t : SlotTicket) :
    (release_slot_ticket s t false).1.released_frames = s.released_frames := by
  unfold release_slot_ticket
  split <;> simp

theorem release_matched_slot_free (s : PoolState) (t : SlotTicket) (b : Bool)
    (hm : releaseMatches s t = true) :
    (slotGet (release_slot_ticket s t b).1.slots t.idx.toNat).in_use = false := by
  obtain ⟨hm0, hm1, hm2, hm3⟩ := (releaseMatches_true_iff s t).mp hm
  have hk : t.idx.toNat < s.slots.length := by omega
  unfold release_slot_ticket
  rw [if_pos hm]
  dsimp only
  rw [slotGet_set_self _ _ _ hk]

theorem release_preserves_gen (s : PoolState) (t : SlotTicket) (b : Bool) (i : Nat) :
    (slotGet (release_slot_ticket s t b).1.slots i).generation =
      (slotGet s.slots i).generation := by
  unfold release_slot_ticket
  split
  case isTrue h =>
    obtain ⟨hm0, hm1, hm2, hm3⟩ := (releaseMatches_true_iff s t).mp h
    have hk : t.idx.toNat < s.slots.length := by omega
    dsimp only
    by_cases hij : i = t.idx.toNat
    · subst hij
      rw [slotGet_set_self _ _ _ hk]
    · rw [slotGet_set_ne _ _ _ _ hij]
  case isFalse h => rfl

/-- C4.  A release whose ticket does not match — slot not in use, or
generation differs from the slot's current generation — is a silent no-op
returning the pool unchanged with no waiter signalled; releasing the same
ticket a second time is always a no-op (idempotence under double and stale
release); and a matching release signals one waiter and marks the slot
free. -/
theorem release_stale_is_silent_noop (s : PoolState) (t : SlotTicket) (b b2 : Bool) :
    ((slotGet s.slots t.idx.toNat).in_use = false ∨
        (slotGet s.slots t.idx.toNat).generation ≠ t.generation →
      release_slot_ticket s t b = (s, false)) ∧
    release_slot_ticket (release_slot_ticket s t b).1 t b2 =
      ((release_slot_ticket s t b).1, false) ∧
    (releaseMatches s t = true →
      (release_slot_ticket s t b).2 = true ∧
      (slotGet (release_slot_ticket s t b).1.slots t.idx.toNat).in_use = false) := by
  refine ⟨?_, ?_, ?_⟩
  · intro h
    cases hm : releaseMatches s t
    · exact release_of_matches_false s t b hm
    · obtain ⟨hm0, hm1, hm2, hm3⟩ := (releaseMatches_true_iff s t).mp hm
      rcases h with h | h
      · rw [hm2] at h
        cases h
      · exact absurd hm3 h
  · cases hm : releaseMatches s t
    · have h1 := release_of_matches_false s t b hm
      rw [h1]
      exact release_of_matches_false s t b2 hm
    · have hfree := release_matched_slot_free s t b hm
      apply release_of_matches_false
      cases hm2 : releaseMatches (release_slot_ticket s t b).1 t
      · rfl
      · have h2 := ((releaseMatches_true_iff _ t).mp hm2).2.2.1
        rw [hfree] at h2
        cases h2
  · intro hm
    refine ⟨?_, release_matched_slot_free s t b hm⟩
    unfold release_slot_ticket
    rw [if_pos hm]

theorem release_stale_is_silent_noop_witness :
    release_slot_ticket ⟨[⟨[], true, 5⟩], 0, 0⟩ ⟨0, 3⟩ true =
        ((⟨[⟨[], true, 5⟩], 0, 0⟩ : PoolState), false) ∧
      ((release_slot_ticket ⟨[⟨[], true, 5⟩], 0, 0⟩ ⟨0, 5⟩ true).2 = true ∧
        (slotGet (release_slot_ticket ⟨[⟨[], true, 5⟩], 0, 0⟩ ⟨0, 5⟩ true).1.slots
          (0 : Int).toNat).in_use = false) :=
  ⟨(release_stale_is_silent_noop ⟨[⟨[], true, 5⟩], 0, 0⟩ ⟨0, 3⟩ true true).1
      (Or.inr (by decide)),
    (release_stale_is_silent_noop ⟨[⟨[], true, 5⟩], 0, 0⟩ ⟨0, 5⟩ true true).2.2
      (by decide)⟩

/-- C10.  A release whose ticket carries a slot index outside
`[0, slot_count)` is a silent no-op for every generation value: the guard
rejects it before any slot entry is read or written, so the pool state and
the signal are exactly as if the call had not happened. -/
theorem release_out_of_range_is_noop (s : PoolState) (t : SlotTicket) (b : Bool)
    (h : t.idx < 0 ∨ (s.slots.length : Int) ≤ t.idx) :
    release_slot_ticket s t b = (s, false) := by
  apply release_of_matches_false
  cases hm : releaseMatches s t
  · rfl
  · obtain ⟨hm0, hm1, _, _⟩ := (releaseMatches_true_iff s t).mp hm
    rcases h with h | h <;> omega

theorem release_out_of_range_is_noop_witness :
    release_slot_ticket ⟨[⟨[], true, 1⟩], 0, 0⟩ ⟨-1, 9⟩ true =
        ((⟨[⟨[], true, 1⟩], 0, 0⟩ : PoolState), false) ∧
      release_slot_ticket ⟨[⟨[], true, 1⟩], 0, 0⟩ ⟨5, 1⟩ true =
        ((⟨[⟨[], true, 1⟩], 0, 0⟩ : PoolState), false) :=
  ⟨release_out_of_range_is_noop ⟨[⟨[], true, 1⟩], 0, 0⟩ ⟨-1, 9⟩ true
      (Or.inl (by decide)),
    release_out_of_range_is_noop ⟨[⟨[], true, 1⟩], 0, 0⟩ ⟨5, 1⟩ true
      (Or.inr (by decide))⟩

/-- C5.  `push_latest_to_infer` is a total function of the mailbox state — it
never waits on the inference worker — and it always leaves the single-frame
mailbox holding exactly the new frame with the has-new flag set and the
sequence number advanced; when the previous frame was still unconsumed
(`infer_has_new` set) that frame is overwritten and `infer_overwrite_count`
grows by exactly one, and otherwise the drop counter is unchanged. -/
theorem push_latest_overwrites_and_counts (m : InferMailbox) (raw : List Nat) :
    (push_latest_to_infer m raw).infer_latest_raw = raw ∧
    (push_latest_to_infer m raw).infer_has_new = true ∧
    (push_latest_to_infer m raw).infer_frame_seq = m.infer_frame_seq + 1 ∧
    (m.infer_has_new = true →
      (push_latest_to_infer m raw).infer_overwrite_count =
        m.infer_overwrite_count + 1) ∧
    (m.infer_has_new = false →
      (push_latest_to_infer m raw).infer_overwrite_count =
        m.infer_overwrite_count) := by
  refine ⟨rfl, rfl, rfl, ?_, ?_⟩ <;> intro h <;> simp [push_latest_to_infer, h]

theorem push_latest_overwrites_and_counts_witness :
    (push_latest_to_infer ⟨[1, 2], 7, true, 3⟩ [9]).infer_latest_raw = [9] ∧
      (push_latest_to_infer ⟨[1, 2], 7, true, 3⟩ [9]).infer_overwrite_count = 3 + 1 :=
  ⟨(push_latest_overwrites_and_counts ⟨[1, 2], 7, true, 3⟩ [9]).1,
    (push_latest_overwrites_and_counts ⟨[1, 2], 7, true, 3⟩ [9]).2.2.2.1 rfl⟩

/-- C9.  When handing a frame to the display path fails — the wrapped-buffer
construction fails (`wrapOk = false`; the cookie allocation is `g_new0`,
which aborts the process rather than return NULL, so it is `true` in every
continuing run) or the downstream `gst_app_src_push_buffer` returns a non-OK
flow (`flowOk = false`) — the producer releases the slot ticket immediately
with `count_release = false`, leaving `released_frames` untouched, does not
count the frame as pushed, and breaks out of the capture loop
(`fatal = true`). -/
theorem downstream_push_failure_releases_and_fatal (s : PoolState) (t : SlotTicket)
    (wrapOk flowOk : Bool) (pushed_frames : Nat)
    (hfail : wrapOk = false ∨ flowOk = false) :
    dispatch_frame s t true wrapOk flowOk pushed_frames =
        ⟨(release_slot_ticket s t false).1, pushed_frames, true⟩ ∧
      (release_slot_ticket s t false).1.released_frames = s.released_frames := by
  constructor
  · cases wrapOk <;> cases flowOk <;>
      simp_all [dispatch_frame, build_frame_buffer]
  · exact release_fst_released_frames_false s t

theorem firstFreeIdx_spec :
    ∀ (l : List FrameSlot) (i : Nat), firstFreeIdx l = some i →
      i < l.length ∧ (slotGet l i).in_use = false := by
  intro l
  induction l with
  | nil =>
    intro i h
    simp [firstFreeIdx] at h
  | cons sl rest ih =>
    intro i h
    by_cases hu : sl.in_use = true
    · rw [firstFreeIdx, if_pos hu] at h
      cases hr : firstFreeIdx rest with
      | none =>
        rw [hr] at h
        simp at h
      | some j =>
        rw [hr] at h
        simp at h
        obtain ⟨hj1, hj2⟩ := ih j hr
        subst h
        exact ⟨by simpa using Nat.succ_lt_succ hj1, hj2⟩
    · rw [firstFreeIdx, if_neg hu] at h
      simp at h
      subst h
      exact ⟨Nat.succ_pos _, by simpa [slotGet] using Bool.not_eq_true _ ▸ hu⟩

theorem firstFreeIdx_none :
    ∀ (l : List FrameSlot), firstFreeIdx l = none →
      ∀ i, i < l.length → (slotGet l i).in_use = true := by
  intro l
  induction l with
  | nil =>
    intro _ i hi
    simp at hi
  | cons sl rest ih =>
    intro h i hi
    by_cases hu : sl.in_use = true
    · rw [firstFreeIdx, if_pos hu] at h
      cases i with
      | zero => exact hu
      | succ j =>
        cases hr : firstFreeIdx rest with
        | none =>
          exact ih hr j (by simpa using hi)
        | some k =>
          rw [hr] at h
          simp at h
    · rw [firstFreeIdx, if_neg hu] at h
      simp at h

theorem poolStep_acq_none (w : PoolWorld) (hr : firstFreeIdx w.state.slots = none) :
    poolStep w PoolOp.acq =
      ⟨{ w.state with
          slot_wait_timeout_count := w.state.slot_wait_timeout_count + 1 },
        w.valid⟩ := by
  simp [poolStep, acquire_scan, hr]

theorem poolStep_acq_some (w : PoolWorld) (i : Nat)
    (hr : firstFreeIdx w.state.slots = some i) :
    poolStep w PoolOp.acq =
      ⟨{ w.state with
          slots := w.state.slots.set i
            { slotGet w.state.slots i with
                in_use := true,
                generation := (slotGet w.state.slots i).generation + 1 } },
        ⟨(i : Int), (slotGet w.state.slots i).generation + 1⟩ :: w.valid⟩ := by
  simp [poolStep, acquire_scan, hr]

theorem poolStep_rel_eq (w : PoolWorld) (t : SlotTicket) (c : Bool) :
    poolStep w (PoolOp.rel t c) =
      ⟨(release_slot_ticket w.state t c).1,
        if (release_slot_ticket w.state t c).2 then w.valid.erase t else w.valid⟩ :=
  rfl

theorem release_snd_of_matches_true (s : PoolState) (t : SlotTicket) (c : Bool)
    (hm : releaseMatches s t = true) : (release_slot_ticket s t c).2 = true := by
  unfold release_slot_ticket
  rw [if_pos hm]

theorem release_fst_slots_of_matches_true (s : PoolState) (t : SlotTicket) (c : Bool)
    (hm : releaseMatches s t = true) :
    (release_slot_ticket s t c).1.slots =
      s.slots.set t.idx.toNat
        { slotGet s.slots t.idx.toNat with in_use := false } := by
  unfold release_slot_ticket
  rw [if_pos hm]

theorem poolStep_preserves_inv (w : PoolWorld) (op : PoolOp) (h : PoolInv w) :
    PoolInv (poolStep w op) := by
  obtain ⟨h1, h2, h3⟩ := h
  cases op with
  | acq =>
    cases hr : firstFreeIdx w.state.slots with
    | none =>
      rw [poolStep_acq_none w hr]
      exact ⟨h1, h2, h3⟩
    | some i =>
      obtain ⟨hilt, hifree⟩ := firstFreeIdx_spec w.state.slots i hr
      rw [poolStep_acq_some w i hr]
      refine ⟨?_, ?_, ?_⟩
      · intro t ht
        rcases List.mem_cons.mp ht with rfl | ht
        · refine ⟨Int.natCast_nonneg i, ?_, ?_, ?_⟩
          · simpa [Int.toNat_natCast, List.length_set] using hilt
          · simp only [Int.toNat_natCast]
            rw [slotGet_set_self _ _ _ hilt]
          · simp only [Int.toNat_natCast]
            rw [slotGet_set_self _ _ _ hilt]
        · obtain ⟨ht0, ht1, ht2, ht3⟩ := h1 t ht
          have hne : t.idx.toNat ≠ i := by
            intro he
            rw [he, hifree] at ht2
            cases ht2
          refine ⟨ht0, by simpa [List.length_set] using ht1, ?_, ?_⟩ <;>
            rw [slotGet_set_ne _ _ _ _ hne] <;> assumption
      · simp only [List.map_cons]
        rw [List.nodup_cons]
        refine ⟨?_, h2⟩
        intro hmem
        obtain ⟨t, htmem, hteq⟩ := List.mem_map.mp hmem
        rw [Int.toNat_natCast] at hteq
        have := (h1 t htmem).2.2.1
        rw [hteq, hifree] at this
        cases this
      · intro j hj hu
        rw [List.length_set] at hj
        by_cases hji : j = i
        · subst hji
          rw [slotGet_set_self _ _ _ hilt]
          exact List.mem_cons_self _ _
        · rw [slotGet_set_ne _ _ _ _ hji] at hu ⊢
          exact List.mem_cons_of_mem _ (h3 j hj hu)
  | rel t c =>
    rw [poolStep_rel_eq]
    cases hm : releaseMatches w.state t with
    | false =>
      rw [release_of_matches_false _ _ _ hm]
      exact ⟨h1, h2, h3⟩
    | true =>
      obtain ⟨hm0, hm1, hm2, hm3⟩ := (releaseMatches_true_iff _ t).mp hm
      have hk : t.idx.toNat < w.state.slots.length := by omega
      have htv : t ∈ w.valid := by
        have hmem := h3 t.idx.toNat hk hm2
        rw [hm3, Int.toNat_of_nonneg hm0] at hmem
        exact hmem
      have hvnodup : w.valid.Nodup := h2.of_map _
      rw [release_snd_of_matches_true _ _ _ hm, if_pos rfl]
      have hslots := release_fst_slots_of_matches_true w.state t c hm
      refine ⟨?_, ?_, ?_⟩
      · intro t2 ht2
        have ht2v : t2 ∈ w.valid := List.mem_of_mem_erase ht2
        have ht2ne : t2 ≠ t := ((List.Nodup.mem_erase_iff hvnodup).mp ht2).1
        obtain ⟨p0, p1, p2, p3⟩ := h1 t2 ht2v
        have hne : t2.idx.toNat ≠ t.idx.toNat := by
          intro he
          exact ht2ne (List.inj_on_of_nodup_map h2 ht2v htv he)
        rw [hslots]
        refine ⟨p0, by simpa [List.length_set] using p1, ?_, ?_⟩ <;>
          rw [slotGet_set_ne _ _ _ _ hne] <;> assumption
      · exact List.Nodup.sublist ((List.erase_sublist t w.valid).map _) h2
      · intro j hj hu
        rw [hslots] at hj hu ⊢
        rw [List.length_set] at hj
        by_cases hji : j = t.idx.toNat
        · subst hji
          rw [slotGet_set_self _ _ _ hk] at hu
          cases hu
        · rw [slotGet_set_ne _ _ _ _ hji] at hu ⊢
          have hmem := h3 j hj hu
          rw [List.Nodup.mem_erase_iff hvnodup]
          refine ⟨?_, hmem⟩
          intro he
          apply hji
          have hidx : t.idx = (j : Int) := by rw [← he]
          rw [hidx, Int.toNat_natCast]

theorem poolRun_preserves_inv :
    ∀ (ops : List PoolOp) (w : PoolWorld), PoolInv w → PoolInv (poolRun ops w) := by
  intro ops
  induction ops with
  | nil => intro w h; exact h
  | cons op rest ih =>
    intro w h
    exact ih (poolStep w op) (poolStep_preserves_inv w op h)

theorem poolStep_slots_length (w : PoolWorld) (op : PoolOp) :
    (poolStep w op).state.slots.length = w.state.slots.length := by
  cases op with
  | acq =>
    cases hr : firstFreeIdx w.state.slots with
    | none => rw [poolStep_acq_none w hr]
    | some i =>
      rw [poolStep_acq_some w i hr]
      simp [List.length_set]
  | rel t c =>
    rw [poolStep_rel_eq]
    cases hm : releaseMatches w.state t with
    | false => rw [release_of_matches_false _ _ _ hm]
    | true =>
      have hslots := release_fst_slots_of_matches_true w.state t c hm
      show (release_slot_ticket w.state t c).1.slots.length = _
      rw [hslots, List.length_set]

theorem poolRun_slots_length :
    ∀ (ops : List PoolOp) (w : PoolWorld),
      (poolRun ops w).state.slots.length = w.state.slots.length := by
  intro ops
  induction ops with
  | nil => intro w; rfl
  | cons op rest ih =>
    intro w
    rw [show poolRun (op :: rest) w = poolRun rest (poolStep w op) from rfl,
      ih (poolStep w op), poolStep_slots_length]

theorem initWorld_inv (slot_count : Nat) : PoolInv (initWorld slot_count) := by
  refine ⟨?_, ?_, ?_⟩
  · intro t ht
    simp [initWorld] at ht
  · simp [initWorld]
  · intro i hi hu
    rw [show (initWorld slot_count).state.slots = List.replicate slot_count default
      from rfl, slotGet_replicate] at hu
    cases hu

theorem nodup_lt_length_le (l : List Nat) (n : Nat) (hn : l.Nodup)
    (hb : ∀ x ∈ l, x < n) : l.length ≤ n := by
  have hcard : l.toFinset.card = l.length := List.toFinset_card_of_nodup hn
  have hsub : l.toFinset ⊆ Finset.range n := by
    intro x hx
    rw [List.mem_toFinset] at hx
    exact Finset.mem_range.mpr (hb x hx)
  have hle := Finset.card_le_card hsub
  rw [hcard, Finset.card_range] at hle
  exact hle

/-- C2.  For every pool capacity and every interleaving of
`acquire_free_slot` and `release_slot_ticket` calls, at most `slot_count`
tickets are simultaneously valid, no two simultaneously valid tickets agree
on `(slot index, generation)`, and generation counters are never changed by a
release — they move only at acquire hand-out time. -/
theorem pool_at_most_n_valid_tickets_all_distinct (slot_count : Nat)
    (ops : List PoolOp) :
    (poolRun ops (initWorld slot_count)).valid.length ≤ slot_count ∧
    List.Pairwise
      (fun t1 t2 => ¬(t1.idx = t2.idx ∧ t1.generation = t2.generation))
      (poolRun ops (initWorld slot_count)).valid ∧
    (∀ (s : PoolState) (t : SlotTicket) (count_release : Bool) (i : Nat),
      (slotGet (release_slot_ticket s t count_release).1.slots i).generation =
        (slotGet s.slots i).generation) := by
  obtain ⟨h1, h2, _⟩ :=
    poolRun_preserves_inv ops (initWorld slot_count) (initWorld_inv slot_count)
  have hlen : (poolRun ops (initWorld slot_count)).state.slots.length = slot_count := by
    rw [poolRun_slots_length]
    simp [initWorld]
  refine ⟨?_, ?_, fun s t c i => release_preserves_gen s t c i⟩
  · have hb : ∀ x ∈ (poolRun ops (initWorld slot_count)).valid.map
        (fun t => t.idx.toNat), x < slot_count := by
      intro x hx
      obtain ⟨t, htm, rfl⟩ := List.mem_map.mp hx
      have := (h1 t htm).2.1
      omega
    have hle := nodup_lt_length_le _ slot_count h2 hb
    simpa using hle
  · have hp := List.pairwise_map.mp h2
    exact hp.imp (fun hab hcon => hab (by rw [hcon.1]))

/-- C7.  `acquire_free_slot` returns its timeout error only when some wakeup
observes the monotonic clock at or past the deadline while every scan so far
— one per wakeup of `slots_cond`, including the deciding one — found no free
slot; on that path `slot_wait_timeout_count` grows by exactly one and the
pool is otherwise untouched.  Earlier wakeups were all strictly before the
deadline (otherwise the call would already have returned). -/
theorem acquire_timeout_only_after_deadline :
    ∀ (obs : List (PoolState × Int)) (deadline_us : Int) (out : AcqOutcome),
      acquire_free_slot deadline_us obs = some out →
      out.ticket = none →
      ∃ k, k < obs.length ∧
        (∀ j, j ≤ k → noFreeSlot (obs.getD j default).1) ∧
        deadline_us ≤ (obs.getD k default).2 ∧
        (∀ j, j < k → (obs.getD j default).2 < deadline_us) ∧
        out.state = { (obs.getD k default).1 with
          slot_wait_timeout_count :=
            (obs.getD k default).1.slot_wait_timeout_count + 1 } := by
  intro obs
  induction obs with
  | nil =>
    intro d out hrun hto
    simp [acquire_free_slot] at hrun
  | cons ob rest ih =>
    intro d out hrun hto
    obtain ⟨s, now⟩ := ob
    rw [acquire_free_slot] at hrun
    cases hscan : acquire_scan s with
    | some p =>
      rw [hscan] at hrun
      obtain ⟨s2, t⟩ := p
      have hout := Option.some.inj hrun
      rw [← hout] at hto
      simp at hto
    | none =>
      rw [hscan] at hrun
      have hnofree : noFreeSlot s := by
        intro i hi
        have hff : firstFreeIdx s.slots = none := by
          unfold acquire_scan at hscan
          cases hff2 : firstFreeIdx s.slots with
          | none => rfl
          | some i2 =>
            rw [hff2] at hscan
            cases hscan
        exact firstFreeIdx_none s.slots hff i hi
      by_cases hd : d ≤ now
      · rw [if_pos hd] at hrun
        have hout := (Option.some.inj hrun).symm
        refine ⟨0, by simp, ?_, hd, ?_, ?_⟩
        · intro j hj
          have hj0 : j = 0 := Nat.le_zero.mp hj
          subst hj0
          exact hnofree
        · intro j hj
          omega
        · rw [hout]
          rfl
      · rw [if_neg hd] at hrun
        obtain ⟨k, hk, hfree, hdk, hlt, hout⟩ := ih d out hrun hto
        refine ⟨k + 1, by simpa using Nat.succ_lt_succ hk, ?_, hdk, ?_, hout⟩
        · intro j hj
          cases j with
          | zero => exact hnofree
          | succ j2 => exact hfree j2 (by omega)
        · intro j hj
          cases j with
          | zero => exact not_le.mp hd
          | succ j2 => exact hlt j2 (by omega)

theorem acquire_timeout_only_after_deadline_witness :
    ∃ k, k < acqObsDemo.length ∧
      (∀ j, j ≤ k → noFreeSlot (acqObsDemo.getD j default).1) ∧
      (50000 : Int) ≤ (acqObsDemo.getD k default).2 ∧
      (∀ j, j < k → (acqObsDemo.getD j default).2 < (50000 : Int)) ∧
      acqOutDemo.state = { (acqObsDemo.getD k default).1 with
        slot_wait_timeout_count :=
          (acqObsDemo.getD k default).1.slot_wait_timeout_count + 1 } :=
  acquire_timeout_only_after_deadline acqObsDemo 50000 acqOutDemo (by decide) rfl

theorem downstream_push_failure_releases_and_fatal_witness :
    dispatch_frame ⟨[⟨[], true, 1⟩], 0, 0⟩ ⟨0, 1⟩ true true false 5 =
        ⟨(release_slot_ticket ⟨[⟨[], true, 1⟩], 0, 0⟩ ⟨0, 1⟩ false).1, 5, true⟩ ∧
      (release_slot_ticket ⟨[⟨[], true, 1⟩], 0, 0⟩ ⟨0, 1⟩ false).1.released_frames =
        (⟨[⟨[], true, 1⟩], 0, 0⟩ : PoolState).released_frames :=
  downstream_push_failure_releases_and_fatal ⟨[⟨[], true, 1⟩], 0, 0⟩ ⟨0, 1⟩
    true false 5 (Or.inr rfl)

end LprDisplay
